import Mathlib

/-!
Verification of the `mdbook-numthm` preprocessor core (`src/lib.rs`).

The development shallowly embeds the two text-rewriting passes of the
preprocessor:

* `find_and_replace_envs` — numbering of environment markers
  `{{key}}{label}[title]` (regex
  `\{\{key\}\}(\{(?P<label>.*?)\})?(\[(?P<title>.*?)\])?`,
  applied with `replace_all`, i.e. leftmost, non-overlapping matches), and
* `find_and_replace_refs` — resolution of reference markers
  (regex `\{\{(?P<reftype>ref:|tref:)\s*(?P<label>.*?)\}\}`),

together with the relative-path helper `compute_rel_path` (built on
`pathdiff::diff_paths` and `Path` component normalization) and the
two-pass driver `NumThmPreprocessor::run`.

Modelling conventions:
* text is a `List Char`; `String` wraps it at the API boundary;
* the lazy captures `.*?` of the Rust regex crate match any character
  except `'\n'`, so a capture is the text up to the *first* closing
  delimiter, provided no newline occurs before it;
* `\s` is modelled by the set of whitespace characters the regex crate
  matches (ASCII whitespace plus the Unicode space code points);
* environment keys are interpolated verbatim into the pattern; the model
  treats them as literal text, which is faithful for keys without regex
  metacharacters (true of all built-in keys);
* the `HashMap<String, LabelInfo>` registry is an association list with
  `List.lookup`/append; the source only inserts absent keys, so lookup
  semantics coincide;
* `warn!` log output is modelled as an explicitly returned list of the
  formatted warning strings;
* paths are compared and relativized through their normalized component
  lists, mirroring `Path::components` (for the relative, forward-slash
  chapter paths mdBook supplies);
* recursion over the scanned text uses a fuel argument (every scanner
  step consumes at least one character, so fuel = length of the text is
  always sufficient); this keeps all definitions structurally recursive
  and computable by the kernel.
-/

/-- An environment handled by the preprocessor (struct `Env`): matching
key (e.g. "thm"), display name (e.g. "Theorem") and markdown emphasis
delimiter (e.g. "**"). -/
structure Env where
  key : String
  name : String
  emph : String
deriving DecidableEq, Repr

/-- Information stored for a label (struct `LabelInfo`): the numbered
name (e.g. "Theorem 1.2.1"), the path of the declaring chapter
(a `PathBuf` in the source, kept as its string here), and the optional
title. -/
structure LabelInfo where
  num_name : String
  path : String
  title : Option String
deriving DecidableEq, Repr

/-- The label registry: the `HashMap<String, LabelInfo>` of the source,
modelled as an association list (the source never overwrites a key). -/
abbrev Registry := List (String × LabelInfo)

/-- The preprocessor configuration (struct `NumThmPreprocessor`). -/
structure NumThmPreprocessor where
  envs : List Env
  with_prefix : Bool
deriving DecidableEq, Repr

/-- A book chapter as the preprocessor sees it: content, optional source
path (`none` exactly for draft chapters, mirroring
`Chapter::is_draft_chapter`), and the optional rendered section number
(the string a `SectionNumber` displays as, e.g. "1.2."). -/
structure Chapter where
  content : String
  path : Option String
  number : Option String
deriving DecidableEq, Repr

/-- Result of one `find_and_replace_envs` call: rewritten content, the
updated registry, and the warnings logged during the call. -/
structure EnvResult where
  content : String
  refs : Registry
  warns : List String
deriving DecidableEq, Repr

/-- Result of one `find_and_replace_refs` call: rewritten content and
the warnings logged during the call. -/
structure RefResult where
  content : String
  warns : List String
deriving DecidableEq, Repr

/-- Internal result of the environment scanner: output text, final
counter value, updated registry, accumulated warnings. -/
structure EnvOut where
  out : List Char
  ctr : Nat
  refs : Registry
  warns : List String
deriving DecidableEq, Repr

/-! ## Path components and `compute_rel_path` -/

/-- Split a character list on the separator `'/'` into raw segments. -/
def splitPathAux : List Char → List Char → List String
  | [], acc => [String.mk acc.reverse]
  | c :: cs, acc =>
    if c = '/' then String.mk acc.reverse :: splitPathAux cs []
    else splitPathAux cs (c :: acc)

/-- Normalized path components, mirroring `Path::components` for the
relative paths mdBook supplies: empty segments (redundant separators)
are dropped, and `"."` segments are dropped except in leading position. -/
def pathComponents (s : String) : List String :=
  match (splitPathAux s.data []).filter (fun p => !(p == "")) with
  | [] => []
  | p :: ps => p :: ps.filter (fun q => !(q == "."))

/-- Join path components with `'/'`, as displaying the collected
`PathBuf` does on the forward-slash paths considered. -/
def joinPath : List String → String
  | [] => ""
  | [p] => p
  | p :: ps => p ++ "/" ++ joinPath ps

/-- The tail phase of the `pathdiff::diff_paths` component loop, entered
once at least one output component has been pushed: the common-prefix
skipping no longer applies; each leftover base component contributes a
`".."`, a `"."` base component passes one target component through, and
a `".."` base component aborts with `none`. -/
def diffPathsTail (comps : List String) : List String → List String → Option (List String)
  | as, [] => some (comps ++ as)
  | [], _ :: bs => diffPathsTail (comps ++ [".."]) [] bs
  | a :: as, b :: bs =>
    if b = "." then diffPathsTail (comps ++ [a]) as bs
    else if b = ".." then none
    else some (comps ++ [".."] ++ bs.map (fun _ => "..") ++ a :: as)

/-- The head phase of the `pathdiff::diff_paths` component loop, while
the output is still empty: skip the common prefix; when the target is
exhausted push a `".."` per remaining base component; on the first
mismatch push `".."` for the base remainder followed by the target
remainder. -/
def diffPathsAux : List String → List String → Option (List String)
  | as, [] => some as
  | [], _ :: bs => diffPathsTail [".."] [] bs
  | a :: as, b :: bs =>
    if a = b then diffPathsAux as bs
    else if b = "." then diffPathsTail [a] as bs
    else if b = ".." then none
    else some ([".."] ++ bs.map (fun _ => "..") ++ a :: as)

/-- `pathdiff::diff_paths(path, base)` on the component lists of two
relative paths. -/
def diffPaths (path base : List String) : Option (List String) :=
  diffPathsAux path base

/-- `compute_rel_path(chap_path, path_to_ref)`: empty when the two paths
are equal (as `PathBuf` equality, i.e. equal component lists), otherwise
the difference from the parent directory of `chap_path` (the `pop()`)
to `path_to_ref`. The `unwrap` of the source cannot fail for the
`..`-free relative paths mdBook supplies; the impossible case is mapped
to the empty string. -/
def compute_rel_path (chap_path : String) (path_to_ref : String) : String :=
  if pathComponents chap_path = pathComponents path_to_ref then ""
  else
    match diffPaths (pathComponents path_to_ref) ((pathComponents chap_path).dropLast) with
    | some comps => joinPath comps
    | none => ""

/-! ## The environment-numbering pass -/

/-- Whitespace as matched by `\s` in the Rust regex crate (Unicode white
space): ASCII whitespace plus the Unicode space code points. -/
def rustWS (c : Char) : Bool :=
  c = ' ' || c = '\t' || c = '\n' || c = '\u000b' || c = '\u000c' || c = '\r' ||
  c = '\u0085' || c = ' ' || c = ' ' ||
  (decide (' ' ≤ c) && decide (c ≤ ' ')) ||
  c = ' ' || c = ' ' || c = ' ' || c = ' ' || c = '　'

/-- Split a character list at the first occurrence of `t`: the
characters before it and the characters after it, or `none` when `t`
does not occur. -/
def splitAtChar (t : Char) : List Char → Option (List Char × List Char)
  | [] => none
  | c :: cs =>
    if c = t then some ([], cs)
    else (splitAtChar t cs).map (fun p => (c :: p.1, p.2))

/-- Split a character list at the first occurrence of the two-character
sequence `"\x7d\x7d"`: the characters before it and the characters after
it, or `none` when it does not occur. -/
def splitAtBraces : List Char → Option (List Char × List Char)
  | [] => none
  | c :: cs =>
    if c = '}' then
      match cs with
      | '}' :: rest => some ([], rest)
      | _ => (splitAtBraces cs).map (fun p => (c :: p.1, p.2))
    else (splitAtBraces cs).map (fun p => (c :: p.1, p.2))

/-- Match one optional delimited capture group such as
`(\{(?P<label>.*?)\})?`: if the text starts with `openC` and the first
subsequent `closeC` is reached without crossing a newline (the lazy
`.*?` cannot match `'\n'`), capture the body and consume the group;
otherwise the optional group matches nothing and the text is left in
place. -/
def matchGroup (openC closeC : Char) (cs : List Char) : Option (List Char) × List Char :=
  match cs with
  | [] => (none, cs)
  | c :: rest =>
    if c = openC then
      match splitAtChar closeC rest with
      | some (body, after) =>
        if body.contains '\n' then (none, cs) else (some body, after)
      | none => (none, cs)
    else (none, cs)

/-- Match the environment regex at the head of the text: the mandatory
literal `{{key}}`, then the optional label group, then the optional
title group. Returns the two captures and the text following the
match. -/
def matchEnvAt (key : List Char) (cs : List Char) :
    Option (Option (List Char) × Option (List Char) × List Char) :=
  let pat := '{' :: '{' :: (key ++ ['}', '}'])
  if pat.isPrefixOf cs then
    let cs1 := cs.drop pat.length
    let (lab, cs2) := matchGroup '{' '}' cs1
    let (tit, cs3) := matchGroup '[' ']' cs2
    some (lab, tit, cs3)
  else none

/-- The numbered name `format!("{name} {prefix}{ctr}")` stored in the
registry, e.g. "Proposition 1.2.1". -/
def numName (env : Env) (pfx : String) (ctr : Nat) : String :=
  env.name ++ " " ++ pfx ++ toString ctr

/-- The rendered header, emphasised and with the optional title
parenthetical: `format!("{emph}{name} {prefix}{ctr} ({title}).{emph}")`
when a title was captured, `format!("{emph}{name} {prefix}{ctr}.{emph}")`
otherwise. -/
def envHeader (env : Env) (pfx : String) (ctr : Nat) : Option String → String
  | some title => env.emph ++ numName env pfx ctr ++ " (" ++ title ++ ")." ++ env.emph
  | none => env.emph ++ numName env pfx ctr ++ "." ++ env.emph

/-- The anchor emitted before the header of a labeled environment:
`format!("<a name=\"{label}\"></a>\n")`. -/
def envAnchor (label : String) : String :=
  "<a name=\"" ++ label ++ "\"></a>\n"

/-- The duplicate-label warning
`warn!("{name} {prefix}{ctr}: Label `{label}' already used")`. -/
def dupWarning (env : Env) (pfx : String) (ctr : Nat) (label : String) : String :=
  numName env pfx ctr ++ ": Label `" ++ label ++ "\x27 already used"

/-- The scanner behind `find_and_replace_envs`: walk the text, and at
each position try the environment regex. On a match, pre-increment the
counter, register a fresh label (or log the duplicate-label warning),
emit anchor and header, and continue after the match; otherwise copy one
character. Fuel bounds the recursion; one unit per step, so fuel =
length of the text always suffices. -/
def envAux (env : Env) (pfx : String) (path : String) :
    Nat → List Char → Nat → Registry → List String → EnvOut
  | 0, cs, ctr, refs, ws => ⟨cs, ctr, refs, ws⟩
  | _ + 1, [], ctr, refs, ws => ⟨[], ctr, refs, ws⟩
  | fuel + 1, c :: rest, ctr, refs, ws =>
    match matchEnvAt env.key.data (c :: rest) with
    | some (lab, tit, after) =>
      let ctr1 := ctr + 1
      let title := tit.map String.mk
      match lab with
      | some labChars =>
        let label := String.mk labChars
        if (List.lookup label refs).isSome then
          let r := envAux env pfx path fuel after ctr1 refs
            (ws ++ [dupWarning env pfx ctr1 label])
          ⟨(envAnchor label).data ++ (envHeader env pfx ctr1 title).data ++ r.out,
            r.ctr, r.refs, r.warns⟩
        else
          let r := envAux env pfx path fuel after ctr1
            (refs ++ [(label, ⟨numName env pfx ctr1, path, title⟩)]) ws
          ⟨(envAnchor label).data ++ (envHeader env pfx ctr1 title).data ++ r.out,
            r.ctr, r.refs, r.warns⟩
      | none =>
        let r := envAux env pfx path fuel after ctr1 refs ws
        ⟨(envHeader env pfx ctr1 title).data ++ r.out, r.ctr, r.refs, r.warns⟩
    | none =>
      let r := envAux env pfx path fuel rest ctr refs ws
      ⟨c :: r.out, r.ctr, r.refs, r.warns⟩

/-- `find_and_replace_envs(s, prefix, path, env, refs)`: replace every
match of the environment pattern in `s`, numbering matches with a
counter starting at 0 and pre-incremented, registering fresh labels and
warning on duplicates. -/
def find_and_replace_envs (s : String) (pfx : String) (path : String) (env : Env)
    (refs : Registry) : EnvResult :=
  let r := envAux env pfx path s.data.length s.data 0 refs []
  ⟨String.mk r.out, r.refs, r.warns⟩

/-! ## The reference-resolution pass -/

/-- Match the part of the reference regex after the keyword: greedy
`\s*`, then the lazy label capture up to the first `"\x7d\x7d"` (which
the lazy `.*?` must reach without crossing a newline). -/
def matchRefAfterKw (cs : List Char) : Option (List Char × List Char) :=
  let cs1 := cs.dropWhile rustWS
  match splitAtBraces cs1 with
  | some (lab, rest) => if lab.contains '\n' then none else some (lab, rest)
  | none => none

/-- Match the reference regex at the head of the text: literal `{{`,
then the alternation `ref:|tref:` (tried in that order; the two branches
are mutually exclusive), then `\s*`, then the lazy label up to `}}`.
Returns whether the variant was the number reference `ref:`, the
captured label, and the text following the match. -/
def matchRefAt : List Char → Option (Bool × List Char × List Char)
  | '{' :: '{' :: 'r' :: 'e' :: 'f' :: ':' :: rest =>
    (matchRefAfterKw rest).map (fun p => (true, p.1, p.2))
  | '{' :: '{' :: 't' :: 'r' :: 'e' :: 'f' :: ':' :: rest =>
    (matchRefAfterKw rest).map (fun p => (false, p.1, p.2))
  | _ => none

/-- The unresolved-reference warning `warn!("Unknown reference: {}", label)`. -/
def unknownWarning (label : String) : String :=
  "Unknown reference: " ++ label

/-- The scanner behind `find_and_replace_refs`: at each position try the
reference regex; on a match look the label up in the registry and emit
either the markdown link or the bold placeholder plus a warning;
otherwise copy one character. -/
def refAux (chapPath : String) (refs : Registry) :
    Nat → List Char → List String → List Char × List String
  | 0, cs, ws => (cs, ws)
  | _ + 1, [], ws => ([], ws)
  | fuel + 1, c :: rest, ws =>
    match matchRefAt (c :: rest) with
    | some (isNumRef, labChars, after) =>
      let label := String.mk labChars
      match List.lookup label refs with
      | some info =>
        let text := if isNumRef then info.num_name else
          match info.title with
          | some t => t
          | none => info.num_name
        let link := "[" ++ text ++ "](" ++ compute_rel_path chapPath info.path
          ++ "#" ++ label ++ ")"
        let r := refAux chapPath refs fuel after ws
        (link.data ++ r.1, r.2)
      | none =>
        let r := refAux chapPath refs fuel after (ws ++ [unknownWarning label])
        ("**[??]**".data ++ r.1, r.2)
    | none =>
      let r := refAux chapPath refs fuel rest ws
      (c :: r.1, r.2)

/-- `find_and_replace_refs(s, chap_path, refs)`: replace every reference
marker in `s` with a link to the registered label, or with the bold
placeholder when the label is unknown. -/
def find_and_replace_refs (s : String) (chap_path : String) (refs : Registry) : RefResult :=
  let r := refAux chap_path refs s.data.length s.data []
  ⟨String.mk r.1, r.2⟩

/-! ## The two-pass driver `NumThmPreprocessor::run` -/

/-- The built-in `thm` environment. -/
def thmEnv : Env := ⟨"thm", "Theorem", "**"⟩

/-- The built-in `lem` environment. -/
def lemEnv : Env := ⟨"lem", "Lemma", "**"⟩

/-- The built-in `prop` environment. -/
def propEnv : Env := ⟨"prop", "Proposition", "**"⟩

/-- The built-in `def` environment. -/
def defEnv : Env := ⟨"def", "Definition", "**"⟩

/-- The built-in `rem` environment (italic emphasis). -/
def remEnv : Env := ⟨"rem", "Remark", "*"⟩

/-- The default preprocessor configuration (`Default::default`). -/
def NumThmPreprocessor.default : NumThmPreprocessor :=
  ⟨[thmEnv, lemEnv, propEnv, defEnv, remEnv], false⟩

/-- The prefix used for a chapter: its rendered section number when the
`prefix` option is set and the chapter has a number, empty otherwise. -/
def chapterPfx (pre : NumThmPreprocessor) (ch : Chapter) : String :=
  if pre.with_prefix then
    match ch.number with
    | some sn => sn
    | none => ""
  else ""

/-- Apply `find_and_replace_envs` for each configured environment in
turn to one chapter content, threading registry and warnings
(`for env in &self.envs { chapter.content = find_and_replace_envs(...) }`). -/
def applyEnvs (pfx : String) (path : String) (envs : List Env) (content : String)
    (refs : Registry) (ws : List String) : String × Registry × List String :=
  match envs with
  | [] => (content, refs, ws)
  | env :: rest =>
    let r := find_and_replace_envs content pfx path env refs
    applyEnvs pfx path rest r.content r.refs (ws ++ r.warns)

/-- First pass of `run` on one chapter: skip drafts, otherwise rewrite
the content with every environment. -/
def processChapterEnvs (pre : NumThmPreprocessor) (ch : Chapter) (refs : Registry)
    (ws : List String) : Chapter × Registry × List String :=
  match ch.path with
  | none => (ch, refs, ws)
  | some p =>
    let r := applyEnvs (chapterPfx pre ch) p pre.envs ch.content refs ws
    ({ ch with content := r.1 }, r.2.1, r.2.2)

/-- First pass of `run` over the whole book, in traversal order. -/
def runEnvPass (pre : NumThmPreprocessor) :
    List Chapter → Registry → List String → List Chapter × Registry × List String
  | [], refs, ws => ([], refs, ws)
  | ch :: book, refs, ws =>
    let r := processChapterEnvs pre ch refs ws
    let rest := runEnvPass pre book r.2.1 r.2.2
    (r.1 :: rest.1, rest.2.1, rest.2.2)

/-- Second pass of `run` over the whole book: resolve references in
every non-draft chapter against the completed registry. -/
def runRefPass (refs : Registry) : List Chapter → List Chapter × List String
  | [] => ([], [])
  | ch :: book =>
    match ch.path with
    | none =>
      let rest := runRefPass refs book
      (ch :: rest.1, rest.2)
    | some p =>
      let r := find_and_replace_refs ch.content p refs
      let rest := runRefPass refs book
      ({ ch with content := r.content } :: rest.1, r.warns ++ rest.2)

/-- `NumThmPreprocessor::run`: the numbering pass over every chapter in
traversal order building the registry, then the reference-resolution
pass over every chapter with the completed registry. Returns the
rewritten book and the warnings logged by both passes. -/
def NumThmPreprocessor.run (pre : NumThmPreprocessor) (book : List Chapter) :
    List Chapter × List String :=
  let p1 := runEnvPass pre book [] []
  let p2 := runRefPass p1.2.1 p1.1
  (p2.1, p1.2.2 ++ p2.2)

/-! ## Specification-side definitions

These re-state parts of the specification in its own words, to be
compared with the embedded source functions. -/

/-- Decompose a text into the successive matches of one environment
pattern: each piece is the literal text before a match together with the
match's label and title captures; the final component is the literal
text after the last match. Mirrors the scan order of `replace_all`. -/
def envSplit (key : List Char) :
    Nat → List Char → List (List Char × Option (List Char) × Option (List Char)) × List Char
  | 0, cs => ([], cs)
  | _ + 1, [] => ([], [])
  | fuel + 1, c :: rest =>
    match matchEnvAt key (c :: rest) with
    | some (lab, tit, after) =>
      let r := envSplit key fuel after
      (([], lab, tit) :: r.1, r.2)
    | none =>
      let r := envSplit key fuel rest
      match r.1 with
      | [] => ([], c :: r.2)
      | (txt, lab, tit) :: ps => ((c :: txt, lab, tit) :: ps, r.2)

/-- Render a decomposed text, numbering the matches sequentially: the
i-th match after a start value `n` receives counter value `n + i`
(1-based), each labeled match preceded by its anchor. This is the
specification's description of the numbering output. -/
def renderPieces (env : Env) (pfx : String) :
    Nat → List (List Char × Option (List Char) × Option (List Char)) → List Char → List Char
  | _, [], trail => trail
  | n, (txt, lab, tit) :: ps, trail =>
    txt ++
    (match lab with
     | some l => (envAnchor (String.mk l)).data
     | none => []) ++
    (envHeader env pfx (n + 1) (tit.map String.mk)).data ++
    renderPieces env pfx (n + 1) ps trail

/-- Specification-side numbering of one chapter content for one
environment kind: split into matches and render them numbered 1, 2, …
from a counter that starts at 0 for this content. -/
def specEnvReplace (env : Env) (pfx : String) (s : String) : String :=
  let r := envSplit env.key.data s.data.length s.data
  String.mk (renderPieces env pfx 0 r.1 r.2)

/-- Specification-side numbered content of one chapter: every
environment kind applied in configuration order, each with its own
counter starting at 0 for this chapter; draft chapters untouched. -/
def specChapterContent (pre : NumThmPreprocessor) (ch : Chapter) : String :=
  match ch.path with
  | none => ch.content
  | some _ => pre.envs.foldl (fun c env => specEnvReplace env (chapterPfx pre ch) c) ch.content

/-- Specification-side relative path ("conventional relative path"):
identical component lists give the empty path; otherwise drop the common
prefix of the base (the referencing chapter's parent directory) and the
target, emit one `".."` per remaining base component and append the
remaining target components. -/
def dropCommon : List String → List String → List String × List String
  | a :: as, b :: bs => if a = b then dropCommon as bs else (a :: as, b :: bs)
  | as, bs => (as, bs)

/-- Specification-side form of `compute_rel_path` (§4.3 of the spec):
normalize the two paths into components, return the empty string when
they are identical, otherwise relativize from the parent directory of
the referencing path using `..` segments. -/
def specRelPath (chap target : String) : String :=
  if pathComponents chap = pathComponents target then ""
  else
    let r := dropCommon ((pathComponents chap).dropLast) (pathComponents target)
    joinPath (r.1.map (fun _ => "..") ++ r.2)

/-- Whether a text contains a match of the environment pattern
anywhere. -/
def hasEnvMatch (key : List Char) : List Char → Bool
  | [] => false
  | c :: cs => (matchEnvAt key (c :: cs)).isSome || hasEnvMatch key cs

/-- Whether a text contains a match of the reference pattern
anywhere. -/
def hasRefMatch : List Char → Bool
  | [] => false
  | c :: cs => (matchRefAt (c :: cs)).isSome || hasRefMatch cs

/-! ## Basic lemmas about the scanners -/

theorem envAux_nil (env : Env) (pfx path : String) (fuel ctr : Nat) (refs : Registry)
    (ws : List String) : envAux env pfx path fuel [] ctr refs ws = ⟨[], ctr, refs, ws⟩ := by
  cases fuel <;> rfl

theorem refAux_nil (chapPath : String) (refs : Registry) (fuel : Nat) (ws : List String) :
    refAux chapPath refs fuel [] ws = ([], ws) := by
  cases fuel <;> rfl

theorem envAux_fuel_pos (env : Env) (pfx path : String) {fuel : Nat} (h : 0 < fuel)
    (cs : List Char) (ctr : Nat) (refs : Registry) (ws : List String) :
    envAux env pfx path fuel cs ctr refs ws =
      envAux env pfx path (fuel - 1 + 1) cs ctr refs ws := by
  rw [Nat.sub_add_cancel h]

theorem refAux_fuel_pos (chapPath : String) (refs : Registry) {fuel : Nat} (h : 0 < fuel)
    (cs : List Char) (ws : List String) :
    refAux chapPath refs fuel cs ws = refAux chapPath refs (fuel - 1 + 1) cs ws := by
  rw [Nat.sub_add_cancel h]

theorem splitAtChar_append (t : Char) (p r : List Char) (h : t ∉ p) :
    splitAtChar t (p ++ t :: r) = some (p, r) := by
  induction p with
  | nil => simp [splitAtChar]
  | cons c cs ih =>
    have h1 : ¬ c = t := fun hc => h (by simp [hc])
    have h2 : t ∉ cs := fun hc => h (List.mem_cons_of_mem _ hc)
    simp [splitAtChar, h1, ih h2]

theorem splitAtChar_none (t : Char) (l : List Char) (h : t ∉ l) :
    splitAtChar t l = none := by
  induction l with
  | nil => rfl
  | cons c cs ih =>
    have h1 : ¬ c = t := fun hc => h (by simp [hc])
    have h2 : t ∉ cs := fun hc => h (List.mem_cons_of_mem _ hc)
    simp [splitAtChar, h1, ih h2]

theorem splitAtBraces_append (p r : List Char) (h : '}' ∉ p) :
    splitAtBraces (p ++ '}' :: '}' :: r) = some (p, r) := by
  induction p with
  | nil => simp [splitAtBraces]
  | cons c cs ih =>
    have h1 : ¬ c = '}' := fun hc => h (by simp [hc])
    have h2 : '}' ∉ cs := fun hc => h (List.mem_cons_of_mem _ hc)
    simp only [List.cons_append, splitAtBraces, if_neg h1]
    simp [ih h2]

theorem contains_eq_false {a : Char} {l : List Char} (h : a ∉ l) : l.contains a = false := by
  simp [h]

theorem matchGroup_open (openC closeC : Char) (body rest : List Char)
    (hne : closeC ∉ body) (hnl : '\n' ∉ body) :
    matchGroup openC closeC (openC :: (body ++ closeC :: rest)) = (some body, rest) := by
  simp [matchGroup, splitAtChar_append closeC body rest hne, hnl]

theorem matchGroup_notOpen (openC closeC c : Char) (rest : List Char) (h : ¬ c = openC) :
    matchGroup openC closeC (c :: rest) = (none, c :: rest) := by
  simp [matchGroup, h]

theorem matchGroup_nil (openC closeC : Char) : matchGroup openC closeC [] = (none, []) := rfl

theorem matchGroup_noClose (openC closeC : Char) (l : List Char) (h : closeC ∉ l) :
    matchGroup openC closeC (openC :: l) = (none, openC :: l) := by
  simp [matchGroup, splitAtChar_none closeC l h]

theorem matchEnvAt_cons (key rest : List Char) :
    matchEnvAt key ('{' :: '{' :: (key ++ '}' :: '}' :: rest)) =
      some ((matchGroup '{' '}' rest).1,
            (matchGroup '[' ']' (matchGroup '{' '}' rest).2).1,
            (matchGroup '[' ']' (matchGroup '{' '}' rest).2).2) := by
  have hsplit : '{' :: '{' :: (key ++ '}' :: '}' :: rest) =
      ('{' :: '{' :: (key ++ ['}', '}'])) ++ rest := by simp
  have hpre : ('{' :: '{' :: (key ++ ['}', '}'])).isPrefixOf
      (('{' :: '{' :: (key ++ ['}', '}'])) ++ rest) :=
    List.isPrefixOf_iff_prefix.mpr (List.prefix_append _ _)
  rw [matchEnvAt, hsplit]
  simp [hpre, List.drop_left]

/-- No leading whitespace: the first character, when present, is not
regex whitespace (so the greedy leading `\s*` of the reference pattern
consumes nothing of it). -/
def noLeadingWS : List Char → Bool
  | [] => true
  | c :: _ => !(rustWS c)

theorem matchRefAt_ref (lab rest : List Char) (h1 : '}' ∉ lab) (h2 : '\n' ∉ lab)
    (h3 : noLeadingWS lab = true) :
    matchRefAt ('{' :: '{' :: 'r' :: 'e' :: 'f' :: ':' :: (lab ++ '}' :: '}' :: rest)) =
      some (true, lab, rest) := by
  cases lab with
  | nil =>
    simp [matchRefAt, matchRefAfterKw, List.dropWhile_cons, splitAtBraces]
  | cons c cs =>
    have hc : rustWS c = false := by simpa [noLeadingWS] using h3
    have hsb : splitAtBraces (c :: (cs ++ '}' :: '}' :: rest)) = some (c :: cs, rest) := by
      have := splitAtBraces_append (c :: cs) rest h1
      simpa using this
    simp [matchRefAt, matchRefAfterKw, List.dropWhile_cons, hc, hsb, h2]

theorem matchRefAt_tref (lab rest : List Char) (h1 : '}' ∉ lab) (h2 : '\n' ∉ lab)
    (h3 : noLeadingWS lab = true) :
    matchRefAt ('{' :: '{' :: 't' :: 'r' :: 'e' :: 'f' :: ':' :: (lab ++ '}' :: '}' :: rest)) =
      some (false, lab, rest) := by
  cases lab with
  | nil =>
    simp [matchRefAt, matchRefAfterKw, List.dropWhile_cons, splitAtBraces]
  | cons c cs =>
    have hc : rustWS c = false := by simpa [noLeadingWS] using h3
    have hsb : splitAtBraces (c :: (cs ++ '}' :: '}' :: rest)) = some (c :: cs, rest) := by
      have := splitAtBraces_append (c :: cs) rest h1
      simpa using this
    simp [matchRefAt, matchRefAfterKw, List.dropWhile_cons, hc, hsb, h2]

/-! ## Step lemmas for the environment scanner -/

theorem envAux_step_nolabel {env : Env} {pfx path : String} {fuel : Nat} {c : Char}
    {cs after : List Char} {tit : Option (List Char)} {ctr : Nat} {refs : Registry}
    {ws : List String}
    (h : matchEnvAt env.key.data (c :: cs) = some (none, tit, after)) :
    envAux env pfx path (fuel + 1) (c :: cs) ctr refs ws =
      (let r := envAux env pfx path fuel after (ctr + 1) refs ws
       ⟨(envHeader env pfx (ctr + 1) (tit.map String.mk)).data ++ r.out,
        r.ctr, r.refs, r.warns⟩) := by
  simp [envAux, h]

theorem envAux_step_fresh {env : Env} {pfx path : String} {fuel : Nat} {c : Char}
    {cs after l : List Char} {tit : Option (List Char)} {ctr : Nat} {refs : Registry}
    {ws : List String}
    (h : matchEnvAt env.key.data (c :: cs) = some (some l, tit, after))
    (hl : List.lookup (String.mk l) refs = none) :
    envAux env pfx path (fuel + 1) (c :: cs) ctr refs ws =
      (let r := envAux env pfx path fuel after (ctr + 1)
        (refs ++ [(String.mk l, ⟨numName env pfx (ctr + 1), path, tit.map String.mk⟩)]) ws
       ⟨(envAnchor (String.mk l)).data ++ (envHeader env pfx (ctr + 1) (tit.map String.mk)).data
          ++ r.out, r.ctr, r.refs, r.warns⟩) := by
  simp [envAux, h, hl]

theorem envAux_step_dup {env : Env} {pfx path : String} {fuel : Nat} {c : Char}
    {cs after l : List Char} {tit : Option (List Char)} {ctr : Nat} {refs : Registry}
    {ws : List String}
    (h : matchEnvAt env.key.data (c :: cs) = some (some l, tit, after))
    (hl : (List.lookup (String.mk l) refs).isSome = true) :
    envAux env pfx path (fuel + 1) (c :: cs) ctr refs ws =
      (let r := envAux env pfx path fuel after (ctr + 1) refs
        (ws ++ [dupWarning env pfx (ctr + 1) (String.mk l)])
       ⟨(envAnchor (String.mk l)).data ++ (envHeader env pfx (ctr + 1) (tit.map String.mk)).data
          ++ r.out, r.ctr, r.refs, r.warns⟩) := by
  simp [envAux, h, hl]

theorem envAux_step_nomatch {env : Env} {pfx path : String} {fuel : Nat} {c : Char}
    {cs : List Char} {ctr : Nat} {refs : Registry} {ws : List String}
    (h : matchEnvAt env.key.data (c :: cs) = none) :
    envAux env pfx path (fuel + 1) (c :: cs) ctr refs ws =
      (let r := envAux env pfx path fuel cs ctr refs ws
       ⟨c :: r.out, r.ctr, r.refs, r.warns⟩) := by
  simp [envAux, h]

/-! ## Step lemmas for the reference scanner -/

theorem refAux_step_found {chapPath : String} {refs : Registry} {fuel : Nat} {c : Char}
    {cs after l : List Char} {b : Bool} {info : LabelInfo} {ws : List String}
    (h : matchRefAt (c :: cs) = some (b, l, after))
    (hl : List.lookup (String.mk l) refs = some info) :
    refAux chapPath refs (fuel + 1) (c :: cs) ws =
      (let text := if b then info.num_name else
        match info.title with
        | some t => t
        | none => info.num_name
       let r := refAux chapPath refs fuel after ws
       (("[" ++ text ++ "](" ++ compute_rel_path chapPath info.path
          ++ "#" ++ String.mk l ++ ")").data ++ r.1, r.2)) := by
  simp [refAux, h, hl]

theorem refAux_step_unknown {chapPath : String} {refs : Registry} {fuel : Nat} {c : Char}
    {cs after l : List Char} {b : Bool} {ws : List String}
    (h : matchRefAt (c :: cs) = some (b, l, after))
    (hl : List.lookup (String.mk l) refs = none) :
    refAux chapPath refs (fuel + 1) (c :: cs) ws =
      (let r := refAux chapPath refs fuel after (ws ++ [unknownWarning (String.mk l)])
       ("**[??]**".data ++ r.1, r.2)) := by
  simp [refAux, h, hl]

theorem refAux_step_nomatch {chapPath : String} {refs : Registry} {fuel : Nat} {c : Char}
    {cs : List Char} {ws : List String}
    (h : matchRefAt (c :: cs) = none) :
    refAux chapPath refs (fuel + 1) (c :: cs) ws =
      (let r := refAux chapPath refs fuel cs ws
       (c :: r.1, r.2)) := by
  simp [refAux, h]

/-! ## Frame lemmas: text without matches is copied verbatim -/

theorem envAux_unchanged (env : Env) (pfx path : String) :
    ∀ (fuel : Nat) (cs : List Char) (ctr : Nat) (refs : Registry) (ws : List String),
      hasEnvMatch env.key.data cs = false →
      envAux env pfx path fuel cs ctr refs ws = ⟨cs, ctr, refs, ws⟩ := by
  intro fuel
  induction fuel with
  | zero => intro cs ctr refs ws _; rfl
  | succ f ih =>
    intro cs ctr refs ws h
    cases cs with
    | nil => rfl
    | cons c rest =>
      simp only [hasEnvMatch, Bool.or_eq_false_iff] at h
      have hm : matchEnvAt env.key.data (c :: rest) = none :=
        Option.not_isSome_iff_eq_none.mp (by simp [h.1])
      rw [envAux_step_nomatch hm]
      simp [ih rest ctr refs ws h.2]

theorem refAux_unchanged (chapPath : String) (refs : Registry) :
    ∀ (fuel : Nat) (cs : List Char) (ws : List String),
      hasRefMatch cs = false →
      refAux chapPath refs fuel cs ws = (cs, ws) := by
  intro fuel
  induction fuel with
  | zero => intro cs ws _; rfl
  | succ f ih =>
    intro cs ws h
    cases cs with
    | nil => rfl
    | cons c rest =>
      simp only [hasRefMatch, Bool.or_eq_false_iff] at h
      have hm : matchRefAt (c :: rest) = none :=
        Option.not_isSome_iff_eq_none.mp (by simp [h.1])
      rw [refAux_step_nomatch hm]
      simp [ih rest ws h.2]

/-- CLAIM C10 (frame effect): a chapter content without any occurrence
of the given environment kind's marker pattern is returned unchanged by
`find_and_replace_envs`, with the registry unmodified and no warning;
likewise a content without any reference marker is returned unchanged by
`find_and_replace_refs` with no warning. -/
theorem find_and_replace_no_match_frame :
    (∀ (s pfx path : String) (env : Env) (refs : Registry),
      hasEnvMatch env.key.data s.data = false →
      find_and_replace_envs s pfx path env refs = ⟨s, refs, []⟩) ∧
    (∀ (s chapPath : String) (refs : Registry),
      hasRefMatch s.data = false →
      find_and_replace_refs s chapPath refs = ⟨s, []⟩) := by
  constructor
  · intro s pfx path env refs h
    simp [find_and_replace_envs, envAux_unchanged env pfx path _ _ _ _ _ h]
  · intro s chapPath refs h
    simp [find_and_replace_refs, refAux_unchanged chapPath refs _ _ _ h]

/-- Witness for C10: a concrete content containing braces but no marker
of the `thm` kind and no reference marker is left untouched by both
passes. -/
theorem find_and_replace_no_match_frame_witness :
    hasEnvMatch thmEnv.key.data "hello \x7bworld\x7d, see \x7b\x7bthm\x7d".data = false ∧
    hasRefMatch "hello \x7bworld\x7d, see \x7b\x7bthm\x7d".data = false ∧
    find_and_replace_envs "hello \x7bworld\x7d, see \x7b\x7bthm\x7d" "1.2." "a.md" thmEnv
      [("l", ⟨"Theorem 1", "b.md", none⟩)] =
      ⟨"hello \x7bworld\x7d, see \x7b\x7bthm\x7d", [("l", ⟨"Theorem 1", "b.md", none⟩)], []⟩ ∧
    find_and_replace_refs "hello \x7bworld\x7d, see \x7b\x7bthm\x7d" "a.md"
      [("l", ⟨"Theorem 1", "b.md", none⟩)] =
      ⟨"hello \x7bworld\x7d, see \x7b\x7bthm\x7d", []⟩ :=
  ⟨by decide, by decide,
    find_and_replace_no_match_frame.1 _ "1.2." "a.md" thmEnv _ (by decide),
    find_and_replace_no_match_frame.2 _ "a.md" _ (by decide)⟩

/-! ## Relative-path computation versus its specification -/

theorem diffPathsTail_nil_base (bs : List String) :
    ∀ comps : List String, diffPathsTail comps [] bs = some (comps ++ bs.map (fun _ => "..")) := by
  induction bs with
  | nil => intro comps; simp [diffPathsTail]
  | cons b bs ih =>
    intro comps
    simp [diffPathsTail, ih (comps ++ [".."])]

theorem diffPathsAux_eq_dropCommon :
    ∀ (bs as : List String), "." ∉ bs → ".." ∉ bs →
      diffPathsAux as bs =
        some ((dropCommon bs as).1.map (fun _ => "..") ++ (dropCommon bs as).2) := by
  intro bs
  induction bs with
  | nil =>
    intro as _ _
    cases as <;> simp [diffPathsAux, dropCommon]
  | cons b bs ih =>
    intro as h1 h2
    have hb1 : ¬ b = "." := fun hb => h1 (by simp [hb])
    have hb2 : ¬ b = ".." := fun hb => h2 (by simp [hb])
    have hbs1 : "." ∉ bs := fun hb => h1 (List.mem_cons_of_mem _ hb)
    have hbs2 : ".." ∉ bs := fun hb => h2 (List.mem_cons_of_mem _ hb)
    cases as with
    | nil =>
      simp [diffPathsAux, dropCommon, diffPathsTail_nil_base bs [".."]]
    | cons a as =>
      by_cases hab : a = b
      · simp [diffPathsAux, dropCommon, hab, ih as hbs1 hbs2]
      · have hba : ¬ b = a := fun hba => hab hba.symm
        simp [diffPathsAux, dropCommon, hab, hba, hb1, hb2]

/-- CLAIM C4 (functional correctness): for paths whose normalized
components contain no `"."` and no `".."` segment (all chapter paths
mdBook supplies), the link-target path computed by `compute_rel_path`
equals the specification's description: the empty string when the two
paths have identical component lists (anchor-only link), and otherwise
the conventional relative path from the referencing chapter's parent
directory to the defining path — one `".."` per base component left
after dropping the common prefix, followed by the remaining target
components — with redundant separators in the inputs normalized away by
the component split. -/
theorem compute_rel_path_spec (chap target : String)
    (h1 : ∀ x ∈ pathComponents chap, x ≠ "." ∧ x ≠ "..")
    (h2 : ∀ x ∈ pathComponents target, x ≠ "." ∧ x ≠ "..") :
    compute_rel_path chap target = specRelPath chap target := by
  unfold compute_rel_path specRelPath
  by_cases heq : pathComponents chap = pathComponents target
  · simp [heq]
  · have hdot : "." ∉ (pathComponents chap).dropLast := fun hm =>
      (h1 _ (List.dropLast_subset _ hm)).1 rfl
    have hdots : ".." ∉ (pathComponents chap).dropLast := fun hm =>
      (h1 _ (List.dropLast_subset _ hm)).2 rfl
    simp only [heq, if_false, diffPaths,
      diffPathsAux_eq_dropCommon _ _ hdot hdots]

/-- Witness for C4: the cross-directory pair from the source's unit
tests, including a redundant separator, satisfies the hypotheses and the
refinement; the computed link path is "../../algebra/groups.md". -/
theorem compute_rel_path_spec_witness :
    (∀ x ∈ pathComponents "math/crypto//signatures/bls_signatures.md", x ≠ "." ∧ x ≠ "..") ∧
    (∀ x ∈ pathComponents "math/algebra/groups.md", x ≠ "." ∧ x ≠ "..") ∧
    compute_rel_path "math/crypto//signatures/bls_signatures.md" "math/algebra/groups.md" =
      specRelPath "math/crypto//signatures/bls_signatures.md" "math/algebra/groups.md" ∧
    compute_rel_path "math/crypto//signatures/bls_signatures.md" "math/algebra/groups.md" =
      "../../algebra/groups.md" :=
  ⟨by decide, by decide, compute_rel_path_spec _ _ (by decide) (by decide), by decide⟩

/-! ## The numbering output as a function of the match decomposition -/

theorem envAux_out_renderPieces (env : Env) (pfx path : String) :
    ∀ (fuel : Nat) (cs : List Char) (ctr : Nat) (refs : Registry) (ws : List String),
      (envAux env pfx path fuel cs ctr refs ws).out =
        renderPieces env pfx ctr (envSplit env.key.data fuel cs).1
          (envSplit env.key.data fuel cs).2 := by
  intro fuel
  induction fuel with
  | zero => intro cs ctr refs ws; simp [envAux, envSplit, renderPieces]
  | succ f ih =>
    intro cs ctr refs ws
    cases cs with
    | nil => simp [envAux, envSplit, renderPieces]
    | cons c rest =>
      cases hm : matchEnvAt env.key.data (c :: rest) with
      | some v =>
        obtain ⟨lab, tit, after⟩ := v
        cases lab with
        | none =>
          rw [envAux_step_nolabel hm]
          simp [envSplit, hm, renderPieces, ih after (ctr + 1) refs ws]
        | some l =>
          by_cases hl : (List.lookup (String.mk l) refs).isSome
          · rw [envAux_step_dup hm hl]
            simp [envSplit, hm, renderPieces,
              ih after (ctr + 1) refs (ws ++ [dupWarning env pfx (ctr + 1) (String.mk l)])]
          · have hl' : List.lookup (String.mk l) refs = none :=
              Option.not_isSome_iff_eq_none.mp hl
            rw [envAux_step_fresh hm hl']
            simp [envSplit, hm, renderPieces, ih after (ctr + 1) _ ws]
      | none =>
        rw [envAux_step_nomatch hm]
        simp only [envSplit, hm]
        rw [ih rest ctr refs ws]
        cases hsp : (envSplit env.key.data f rest).1 with
        | nil => simp [renderPieces, hsp]
        | cons p ps =>
          obtain ⟨txt, lb, tt⟩ := p
          simp [renderPieces, hsp]

theorem find_and_replace_envs_content_spec (env : Env) (pfx path : String) (s : String)
    (refs : Registry) :
    (find_and_replace_envs s pfx path env refs).content = specEnvReplace env pfx s := by
  simp [find_and_replace_envs, specEnvReplace, envAux_out_renderPieces]

theorem applyEnvs_content (pfx path : String) :
    ∀ (envs : List Env) (content : String) (refs : Registry) (ws : List String),
      (applyEnvs pfx path envs content refs ws).1 =
        envs.foldl (fun c env => specEnvReplace env pfx c) content := by
  intro envs
  induction envs with
  | nil => intro content refs ws; rfl
  | cons env rest ih =>
    intro content refs ws
    simp only [applyEnvs, List.foldl_cons]
    rw [ih, find_and_replace_envs_content_spec]

theorem processChapterEnvs_content (pre : NumThmPreprocessor) (ch : Chapter)
    (refs : Registry) (ws : List String) :
    (processChapterEnvs pre ch refs ws).1.content = specChapterContent pre ch := by
  unfold processChapterEnvs specChapterContent
  cases ch.path with
  | none => simp
  | some p => simp [applyEnvs_content]

theorem runEnvPass_contents (pre : NumThmPreprocessor) :
    ∀ (book : List Chapter) (refs : Registry) (ws : List String),
      (runEnvPass pre book refs ws).1.map Chapter.content =
        book.map (specChapterContent pre) := by
  intro book
  induction book with
  | nil => intro refs ws; rfl
  | cons ch rest ih =>
    intro refs ws
    simp only [runEnvPass, List.map_cons]
    rw [processChapterEnvs_content, ih]

/-- CLAIM C1, counterexample: in a book of two non-draft chapters each
containing one `thm` marker, the second occurrence of the kind across
the tree is numbered 1, not 2 — the run output renders both chapters as
"**Theorem 1.**", so the counter is not scoped to the entire numbering
pass as the claim states. -/
theorem numbering_not_global_cex :
    (NumThmPreprocessor.run NumThmPreprocessor.default
      [⟨"\x7b\x7bthm\x7d\x7d", some "a.md", none⟩,
       ⟨"\x7b\x7bthm\x7d\x7d", some "b.md", none⟩]).1.map Chapter.content =
      ["**Theorem 1.**", "**Theorem 1.**"] ∧
    ("**Theorem 1.**" : String) ≠ "**Theorem 2.**" := by
  exact ⟨by decide, by decide⟩

/-- CLAIM C1 (corrected): the counter is scoped to one
`find_and_replace_envs` invocation, i.e. to a single (chapter, kind)
pair, not to the entire numbering pass: the content each chapter gets
from the numbering pass equals the specification-side per-chapter
rendering in which every kind's counter restarts at 0 for that chapter
and the Nth match of a kind within the chapter receives counter value N
(1-based, via `renderPieces`), independently of every other chapter and
of the incoming registry. -/
theorem numbering_counter_per_chapter (pre : NumThmPreprocessor) (book : List Chapter)
    (refs : Registry) (ws : List String) :
    (runEnvPass pre book refs ws).1.map Chapter.content =
      book.map (specChapterContent pre) :=
  runEnvPass_contents pre book refs ws

/-! ## String helper lemmas -/

theorem mk_data_eq (s : String) : String.mk s.data = s := rfl

theorem data_two_braces_open : "\x7b\x7b".data = ['{', '{'] := rfl

theorem mk_data_append (s t : String) : String.mk (s.data ++ t.data) = s ++ t := rfl

theorem mk_data_append3 (s t u : String) :
    String.mk (s.data ++ (t.data ++ u.data)) = s ++ (t ++ u) := rfl

theorem mk_data_append4 (s t u v : String) :
    String.mk (s.data ++ (t.data ++ (u.data ++ v.data))) = s ++ (t ++ (u ++ v)) := rfl

theorem data_two_braces_close : "\x7d\x7d".data = ['}', '}'] := rfl

/-- CLAIM C5 (functional correctness): the rendered header of a matched
environment marker is exactly
`emphasisDelimiter ++ displayName ++ " " ++ prefix ++ counterValue ++
optional " (" ++ title ++ ")" ++ "." ++ emphasisDelimiter`, the title
parenthetical being present if and only if a title was captured: a bare
marker renders `envHeader env pfx 1 none` and a marker with a title
renders `envHeader env pfx 1 (some tit)`, and the two `envHeader` forms
are exactly the claimed concatenations. The witness instantiates the
claim's example: `\x7b\x7bprop\x7d\x7d` with prefix "1.2." renders
exactly "**Proposition 1.2.1.**". (The title hypotheses state that the
title text does not itself contain the closing bracket or a newline, as
captures cannot.) -/
theorem env_header_format (env : Env) (pfx path : String) (refs : Registry) (tit : String)
    (ht1 : ']' ∉ tit.data) (ht2 : '\n' ∉ tit.data) :
    find_and_replace_envs ("\x7b\x7b" ++ env.key ++ "\x7d\x7d") pfx path env refs =
      ⟨envHeader env pfx 1 none, refs, []⟩ ∧
    find_and_replace_envs ("\x7b\x7b" ++ env.key ++ "\x7d\x7d[" ++ tit ++ "]") pfx path env refs =
      ⟨envHeader env pfx 1 (some tit), refs, []⟩ ∧
    (∀ n : Nat, envHeader env pfx n (some tit) =
      env.emph ++ env.name ++ " " ++ pfx ++ toString n ++ " (" ++ tit ++ ")." ++ env.emph) ∧
    (∀ n : Nat, envHeader env pfx n none =
      env.emph ++ env.name ++ " " ++ pfx ++ toString n ++ "." ++ env.emph) := by
  refine ⟨?_, ?_, ?_, ?_⟩
  · have hd : ("\x7b\x7b" ++ env.key ++ "\x7d\x7d").data =
        '{' :: '{' :: (env.key.data ++ '}' :: '}' :: ([] : List Char)) := by
      simp [String.data_append, data_two_braces_open, data_two_braces_close]
    have hm : matchEnvAt env.key.data
        ('{' :: '{' :: (env.key.data ++ '}' :: '}' :: ([] : List Char))) =
        some (none, none, []) := by
      rw [matchEnvAt_cons]; rfl
    unfold find_and_replace_envs
    rw [hd]
    rw [envAux_fuel_pos _ _ _ (by simp) _ _ _ _]
    rw [envAux_step_nolabel hm]
    simp [envAux_nil, mk_data_eq]
  · have hd : ("\x7b\x7b" ++ env.key ++ "\x7d\x7d[" ++ tit ++ "]").data =
        '{' :: '{' :: (env.key.data ++ '}' :: '}' :: ('[' :: (tit.data ++ ']' :: []))) := by
      simp [String.data_append, data_two_braces_open]
    have hm : matchEnvAt env.key.data
        ('{' :: '{' :: (env.key.data ++ '}' :: '}' :: ('[' :: (tit.data ++ ']' :: [])))) =
        some (none, some tit.data, []) := by
      rw [matchEnvAt_cons]
      rw [matchGroup_notOpen _ _ _ _ (by decide)]
      rw [matchGroup_open _ _ _ _ ht1 ht2]
    unfold find_and_replace_envs
    rw [hd]
    rw [envAux_fuel_pos _ _ _ (by simp) _ _ _ _]
    rw [envAux_step_nolabel hm]
    simp [envAux_nil, mk_data_eq]
  · intro n; simp [envHeader, numName, String.append_assoc]
  · intro n; simp [envHeader, numName, String.append_assoc]

/-- Witness for C5: the claim's own concrete scenario, obtained by
applying `env_header_format` at the `prop` environment with prefix
"1.2." and evaluating the header. -/
theorem env_header_format_witness :
    find_and_replace_envs "\x7b\x7bprop\x7d\x7d" "1.2." "crypto/groups.md" propEnv [] =
      ⟨"**Proposition 1.2.1.**", [], []⟩ :=
  ((env_header_format propEnv "1.2." "crypto/groups.md" [] "Lagrange Theorem"
    (by decide) (by decide)).1).trans (by decide)

/-- The optional title part of a declaration marker, as written in the
source text. -/
def titlePart : Option String → String
  | some t => "[" ++ t ++ "]"
  | none => ""

/-- A full declaration marker `{{key}}{label}` with optional `[title]`. -/
def envMarker (key label : String) (tit : Option String) : String :=
  "\x7b\x7b" ++ key ++ "\x7d\x7d\x7b" ++ label ++ "\x7d" ++ titlePart tit

theorem data_braces_close_open : "\x7d\x7d\x7b".data = ['}', '}', '{'] := rfl

/-- Evaluation of a fresh labeled declaration marker: the output is the
anchor followed by the header, and the registry gains exactly the one
new entry. Shared helper behind the claims about labeled declarations. -/
theorem envMarker_fresh_eval (env : Env) (pfx path : String) (refs : Registry)
    (label : String) (tit : Option String)
    (hl1 : '}' ∉ label.data) (hl2 : '\n' ∉ label.data)
    (ht : ∀ t, tit = some t → ']' ∉ t.data ∧ '\n' ∉ t.data)
    (hfresh : List.lookup label refs = none) :
    find_and_replace_envs (envMarker env.key label tit) pfx path env refs =
      ⟨envAnchor label ++ envHeader env pfx 1 tit,
       refs ++ [(label, ⟨numName env pfx 1, path, tit⟩)], []⟩ := by
  cases tit with
  | none =>
    have hd : (envMarker env.key label none).data =
        '{' :: '{' :: (env.key.data ++ '}' :: '}' ::
          ('{' :: (label.data ++ '}' :: ([] : List Char)))) := by
      simp [envMarker, titlePart, String.data_append, data_two_braces_open,
        data_braces_close_open]
    have hm : matchEnvAt env.key.data
        ('{' :: '{' :: (env.key.data ++ '}' :: '}' ::
          ('{' :: (label.data ++ '}' :: ([] : List Char))))) =
        some (some label.data, none, []) := by
      rw [matchEnvAt_cons]
      rw [matchGroup_open _ _ _ _ hl1 hl2]
      rfl
    unfold find_and_replace_envs
    rw [hd]
    rw [envAux_fuel_pos _ _ _ (by simp) _ _ _ _]
    rw [envAux_step_fresh hm hfresh]
    simp [envAux_nil, mk_data_eq, mk_data_append]
  | some t =>
    obtain ⟨ht1, ht2⟩ := ht t rfl
    have hd : (envMarker env.key label (some t)).data =
        '{' :: '{' :: (env.key.data ++ '}' :: '}' ::
          ('{' :: (label.data ++ '}' :: ('[' :: (t.data ++ ']' :: []))))) := by
      simp [envMarker, titlePart, String.data_append, data_two_braces_open,
        data_braces_close_open]
    have hm : matchEnvAt env.key.data
        ('{' :: '{' :: (env.key.data ++ '}' :: '}' ::
          ('{' :: (label.data ++ '}' :: ('[' :: (t.data ++ ']' :: [])))))) =
        some (some label.data, some t.data, []) := by
      rw [matchEnvAt_cons]
      rw [matchGroup_open _ _ _ _ hl1 hl2]
      rw [matchGroup_open _ _ _ _ ht1 ht2]
    unfold find_and_replace_envs
    rw [hd]
    rw [envAux_fuel_pos _ _ _ (by simp) _ _ _ _]
    rw [envAux_step_fresh hm hfresh]
    simp [envAux_nil, mk_data_eq, mk_data_append]

/-- CLAIM C6 (functional correctness): an environment marker capturing a
label not yet in the registry emits the anchor bound to that label
(ending in a newline, hence on its own line) immediately before the
rendered header, and the registry gains exactly one entry mapping the
label to the rendered numbered name, the declaring chapter's path, and
the optional captured title. (The hypotheses say the label text contains
no closing brace or newline — otherwise the capture would not be this
label — and similarly for the title.) -/
theorem env_label_registration (env : Env) (pfx path : String) (refs : Registry)
    (label : String) (tit : Option String)
    (hl1 : '}' ∉ label.data) (hl2 : '\n' ∉ label.data)
    (ht : ∀ t, tit = some t → ']' ∉ t.data ∧ '\n' ∉ t.data)
    (hfresh : List.lookup label refs = none) :
    find_and_replace_envs (envMarker env.key label tit) pfx path env refs =
      ⟨envAnchor label ++ envHeader env pfx 1 tit,
       refs ++ [(label, ⟨numName env pfx 1, path, tit⟩)], []⟩ ∧
    envAnchor label = "<a name=\"" ++ label ++ "\"></a>\n" :=
  ⟨envMarker_fresh_eval env pfx path refs label tit hl1 hl2 ht hfresh, rfl⟩

/-- Witness for C6: the claim's concrete scenario (the labeled, titled
`prop` declaration of the source's unit tests), obtained by applying
`env_label_registration` and evaluating. -/
theorem env_label_registration_witness :
    find_and_replace_envs "\x7b\x7bprop\x7d\x7d\x7bprop:lagrange\x7d[Lagrange Theorem]"
        "1.2." "crypto/groups.md" propEnv [] =
      ⟨"<a name=\"prop:lagrange\"></a>\n**Proposition 1.2.1 (Lagrange Theorem).**",
       [("prop:lagrange", ⟨"Proposition 1.2.1", "crypto/groups.md", some "Lagrange Theorem"⟩)],
       []⟩ :=
  ((env_label_registration propEnv "1.2." "crypto/groups.md" [] "prop:lagrange"
      (some "Lagrange Theorem") (by decide) (by decide)
      (by intro t h; injection h with h; subst h; exact ⟨by decide, by decide⟩)
      (by decide)).1).trans (by decide)

/-- CLAIM C3 (error handling): when the captured label is already
present in the registry, the entry is not overwritten (the returned
registry is exactly the incoming one), a warning naming the environment
kind, the rendered number and the duplicate label is emitted, and
numbering still proceeds: the anchor and header are still rendered and
the counter still increments — a second duplicate marker in the same
content is numbered 2. The final conjunct spells out the warning
format. -/
theorem env_duplicate_label (env : Env) (pfx path : String) (refs : Registry) (label : String)
    (hl1 : '}' ∉ label.data) (hl2 : '\n' ∉ label.data)
    (hdup : (List.lookup label refs).isSome = true) :
    find_and_replace_envs (envMarker env.key label none ++ envMarker env.key label none)
        pfx path env refs =
      ⟨envAnchor label ++ envHeader env pfx 1 none ++ envAnchor label ++ envHeader env pfx 2 none,
       refs, [dupWarning env pfx 1 label, dupWarning env pfx 2 label]⟩ ∧
    (∀ n : Nat, dupWarning env pfx n label =
      env.name ++ " " ++ pfx ++ toString n ++ ": Label `" ++ label ++ "\x27 already used") := by
  constructor
  · have hd : (envMarker env.key label none ++ envMarker env.key label none).data =
        '{' :: '{' :: (env.key.data ++ '}' :: '}' ::
          ('{' :: (label.data ++ '}' ::
            ('{' :: '{' :: (env.key.data ++ '}' :: '}' ::
              ('{' :: (label.data ++ '}' :: ([] : List Char)))))))) := by
      simp [envMarker, titlePart, String.data_append, data_two_braces_open,
        data_braces_close_open]
    have hm2 : matchEnvAt env.key.data
        ('{' :: '{' :: (env.key.data ++ '}' :: '}' ::
          ('{' :: (label.data ++ '}' :: ([] : List Char))))) =
        some (some label.data, none, []) := by
      rw [matchEnvAt_cons]
      rw [matchGroup_open _ _ _ _ hl1 hl2]
      rfl
    have hm1 : matchEnvAt env.key.data
        ('{' :: '{' :: (env.key.data ++ '}' :: '}' ::
          ('{' :: (label.data ++ '}' ::
            ('{' :: '{' :: (env.key.data ++ '}' :: '}' ::
              ('{' :: (label.data ++ '}' :: ([] : List Char))))))))) =
        some (some label.data, none,
          '{' :: '{' :: (env.key.data ++ '}' :: '}' ::
            ('{' :: (label.data ++ '}' :: ([] : List Char))))) := by
      rw [matchEnvAt_cons]
      rw [matchGroup_open _ _ _ _ hl1 hl2]
      rw [matchGroup_notOpen _ _ _ _ (by decide)]
    unfold find_and_replace_envs
    rw [hd]
    rw [envAux_fuel_pos _ _ _ (by simp) _ _ _ _]
    rw [envAux_step_dup hm1 hdup]
    rw [envAux_fuel_pos _ _ _ (by simp [List.length_append]) _ _ _ _]
    rw [envAux_step_dup hm2 hdup]
    simp [envAux_nil, mk_data_eq, mk_data_append, mk_data_append3, mk_data_append4,
      String.append_assoc]
  · intro n
    simp [dupWarning, numName, String.append_assoc]

/-- Witness for C3: a concrete registry already containing label "l";
two `thm` markers re-declaring it are both rendered and numbered 1 and 2
while the registry is unchanged and both warnings are logged, obtained
by applying `env_duplicate_label` and evaluating. -/
theorem env_duplicate_label_witness :
    find_and_replace_envs
        "\x7b\x7bthm\x7d\x7d\x7bl\x7d\x7b\x7bthm\x7d\x7d\x7bl\x7d" "" "p.md" thmEnv
        [("l", ⟨"Theorem 9", "q.md", none⟩)] =
      ⟨"<a name=\"l\"></a>\n**Theorem 1.**<a name=\"l\"></a>\n**Theorem 2.**",
       [("l", ⟨"Theorem 9", "q.md", none⟩)],
       ["Theorem 1: Label `l\x27 already used", "Theorem 2: Label `l\x27 already used"]⟩ :=
  ((env_duplicate_label thmEnv "" "p.md" [("l", ⟨"Theorem 9", "q.md", none⟩)] "l"
    (by decide) (by decide) (by decide)).1).trans (by decide)

theorem data_ref_open : "\x7b\x7bref:".data = ['{', '{', 'r', 'e', 'f', ':'] := rfl

theorem data_tref_open : "\x7b\x7btref:".data = ['{', '{', 't', 'r', 'e', 'f', ':'] := rfl

/-- CLAIM C7 (error handling): a reference marker whose label is not in
the registry is replaced by the fixed visible bold placeholder and a
diagnostic warning naming the unknown label is emitted, for both the
number-reference and the title-reference variant; the model is a total
function, so no error is raised and processing continues. (The label
hypotheses restrict to labels expressible in a reference marker: no
closing brace, no newline, no leading whitespace.) -/
theorem ref_unknown_label (lab chapPath : String) (refs : Registry)
    (hl1 : '}' ∉ lab.data) (hl2 : '\n' ∉ lab.data) (hl3 : noLeadingWS lab.data = true)
    (hnone : List.lookup lab refs = none) :
    find_and_replace_refs ("\x7b\x7bref:" ++ lab ++ "\x7d\x7d") chapPath refs =
      ⟨"**[??]**", [unknownWarning lab]⟩ ∧
    find_and_replace_refs ("\x7b\x7btref:" ++ lab ++ "\x7d\x7d") chapPath refs =
      ⟨"**[??]**", [unknownWarning lab]⟩ ∧
    unknownWarning lab = "Unknown reference: " ++ lab := by
  refine ⟨?_, ?_, rfl⟩
  · have hd : ("\x7b\x7bref:" ++ lab ++ "\x7d\x7d").data =
        '{' :: '{' :: 'r' :: 'e' :: 'f' :: ':' :: (lab.data ++ '}' :: '}' :: []) := by
      simp [String.data_append, data_ref_open]
    have hm := matchRefAt_ref lab.data [] hl1 hl2 hl3
    unfold find_and_replace_refs
    rw [hd]
    rw [refAux_fuel_pos _ _ (by simp) _ _]
    rw [refAux_step_unknown hm hnone]
    simp [refAux_nil, mk_data_eq]
  · have hd : ("\x7b\x7btref:" ++ lab ++ "\x7d\x7d").data =
        '{' :: '{' :: 't' :: 'r' :: 'e' :: 'f' :: ':' :: (lab.data ++ '}' :: '}' :: []) := by
      simp [String.data_append, data_tref_open]
    have hm := matchRefAt_tref lab.data [] hl1 hl2 hl3
    unfold find_and_replace_refs
    rw [hd]
    rw [refAux_fuel_pos _ _ (by simp) _ _]
    rw [refAux_step_unknown hm hnone]
    simp [refAux_nil, mk_data_eq]

/-- Witness for C7: referencing the never-declared label "nolabel"
against an empty registry yields the placeholder and the warning,
obtained by applying `ref_unknown_label` and evaluating. -/
theorem ref_unknown_label_witness :
    find_and_replace_refs "\x7b\x7bref:nolabel\x7d\x7d" "a.md" [] =
      ⟨"**[??]**", ["Unknown reference: nolabel"]⟩ :=
  ((ref_unknown_label "nolabel" "a.md" [] (by decide) (by decide) (by decide)
    (by decide)).1).trans (by decide)

theorem string_eq_iff_data {s t : String} : s = t ↔ s.data = t.data :=
  ⟨fun h => h ▸ rfl, fun h => by cases s; cases t; exact congrArg String.mk (by simpa using h)⟩

theorem data_lbrack : "[".data = ['['] := rfl

theorem data_rbrack_lparen : "](".data = [']', '('] := rfl

theorem data_hash : "#".data = ['#'] := rfl

theorem data_rparen : ")".data = [')'] := rfl

/-- CLAIM C2 (round trip): declaring a label (with optional title) in a
chapter at `declPath` and then referencing it resolves to a link whose
display text is exactly the numbered name rendered at declaration
(`numName env pfx 1`) for the number-reference form, and the declared
title — falling back to the numbered name when no title was given — for
the title-reference form; the first conjunct records that the
declaration registered exactly that numbered name, path and title. (The
hypotheses restrict to labels that can be both declared and referenced:
no closing brace, no newline, no leading whitespace.) -/
theorem ref_round_trip (env : Env) (pfx declPath chapPath : String) (label : String)
    (tit : Option String)
    (hl1 : '}' ∉ label.data) (hl2 : '\n' ∉ label.data) (hl3 : noLeadingWS label.data = true)
    (ht : ∀ t, tit = some t → ']' ∉ t.data ∧ '\n' ∉ t.data) :
    (find_and_replace_envs (envMarker env.key label tit) pfx declPath env []).refs =
      [(label, ⟨numName env pfx 1, declPath, tit⟩)] ∧
    find_and_replace_refs ("\x7b\x7bref:" ++ label ++ "\x7d\x7d") chapPath
        (find_and_replace_envs (envMarker env.key label tit) pfx declPath env []).refs =
      ⟨"[" ++ numName env pfx 1 ++ "](" ++ compute_rel_path chapPath declPath
        ++ "#" ++ label ++ ")", []⟩ ∧
    find_and_replace_refs ("\x7b\x7btref:" ++ label ++ "\x7d\x7d") chapPath
        (find_and_replace_envs (envMarker env.key label tit) pfx declPath env []).refs =
      ⟨"[" ++ (tit.getD (numName env pfx 1)) ++ "](" ++ compute_rel_path chapPath declPath
        ++ "#" ++ label ++ ")", []⟩ := by
  have hdecl := envMarker_fresh_eval env pfx declPath [] label tit hl1 hl2 ht rfl
  have hrefs : (find_and_replace_envs (envMarker env.key label tit) pfx declPath env []).refs =
      [(label, ⟨numName env pfx 1, declPath, tit⟩)] := by
    rw [hdecl]
    simp
  refine ⟨hrefs, ?_, ?_⟩
  · have hd : ("\x7b\x7bref:" ++ label ++ "\x7d\x7d").data =
        '{' :: '{' :: 'r' :: 'e' :: 'f' :: ':' :: (label.data ++ '}' :: '}' :: []) := by
      simp [String.data_append, data_ref_open]
    have hm := matchRefAt_ref label.data [] hl1 hl2 hl3
    have hlook : List.lookup label [(label, (⟨numName env pfx 1, declPath, tit⟩ : LabelInfo))] =
        some ⟨numName env pfx 1, declPath, tit⟩ := by simp
    rw [hrefs]
    unfold find_and_replace_refs
    rw [hd]
    rw [refAux_fuel_pos _ _ (by simp) _ _]
    rw [refAux_step_found hm hlook]
    simp [refAux_nil, string_eq_iff_data, String.data_append, data_lbrack,
      data_rbrack_lparen, data_hash, data_rparen]
  · have hd : ("\x7b\x7btref:" ++ label ++ "\x7d\x7d").data =
        '{' :: '{' :: 't' :: 'r' :: 'e' :: 'f' :: ':' :: (label.data ++ '}' :: '}' :: []) := by
      simp [String.data_append, data_tref_open]
    have hm := matchRefAt_tref label.data [] hl1 hl2 hl3
    have hlook : List.lookup label [(label, (⟨numName env pfx 1, declPath, tit⟩ : LabelInfo))] =
        some ⟨numName env pfx 1, declPath, tit⟩ := by simp
    rw [hrefs]
    unfold find_and_replace_refs
    rw [hd]
    rw [refAux_fuel_pos _ _ (by simp) _ _]
    rw [refAux_step_found hm hlook]
    cases tit with
    | none =>
      simp [refAux_nil, string_eq_iff_data, String.data_append, data_lbrack,
        data_rbrack_lparen, data_hash, data_rparen]
    | some t =>
      simp [refAux_nil, string_eq_iff_data, String.data_append, data_lbrack,
        data_rbrack_lparen, data_hash, data_rparen]

/-- Witness for C2: the cross-file titled declaration of the source's
unit tests, referenced with the title form, resolves to the declared
title and the correct relative link, obtained by applying
`ref_round_trip` and evaluating. -/
theorem ref_round_trip_witness :
    find_and_replace_refs "\x7b\x7btref:prop:lagrange\x7d\x7d"
        "math/crypto//signatures/bls_signatures.md"
        (find_and_replace_envs (envMarker "prop" "prop:lagrange" (some "Lagrange Theorem"))
          "1.2." "math/algebra/groups.md" propEnv []).refs =
      ⟨"[Lagrange Theorem](../../algebra/groups.md#prop:lagrange)", []⟩ :=
  ((ref_round_trip propEnv "1.2." "math/algebra/groups.md"
      "math/crypto//signatures/bls_signatures.md" "prop:lagrange" (some "Lagrange Theorem")
      (by decide) (by decide) (by decide)
      (by intro t h; injection h with h; subst h; exact ⟨by decide, by decide⟩)).2.2).trans
    (by decide)

/-- CLAIM C8, counterexample: with label "foo" registered, the reference
marker `\x7b\x7bref:foo \x7d\x7d` (trailing space before the closing
braces) does NOT resolve: the trailing whitespace is captured as part of
the label, the lookup uses "foo " and fails, so the output is the
placeholder with an unknown-reference warning naming "foo " — not the
resolved link the claim's trimming would produce. -/
theorem ref_trailing_ws_cex :
    find_and_replace_refs "\x7b\x7bref:foo \x7d\x7d" "a.md"
        [("foo", ⟨"Theorem 1", "a.md", none⟩)] =
      ⟨"**[??]**", ["Unknown reference: foo "]⟩ ∧
    find_and_replace_refs "\x7b\x7bref:foo \x7d\x7d" "a.md"
        [("foo", ⟨"Theorem 1", "a.md", none⟩)] ≠
      ⟨"[Theorem 1](#foo)", []⟩ :=
  ⟨by decide, by decide⟩

theorem dropWhile_all_append (p : Char → Bool) (xs l : List Char)
    (h : ∀ c ∈ xs, p c = true) :
    (xs ++ l).dropWhile p = l.dropWhile p := by
  induction xs with
  | nil => rfl
  | cons c cs ih =>
    simp [List.dropWhile_cons, h c (by simp), ih (fun d hd => h d (by simp [hd]))]

theorem matchRefAt_ref_ws (wsl lab rest : List Char) (hws : ∀ c ∈ wsl, rustWS c = true)
    (h1 : '}' ∉ lab) (h2 : '\n' ∉ lab) (h3 : noLeadingWS lab = true) :
    matchRefAt ('{' :: '{' :: 'r' :: 'e' :: 'f' :: ':' :: (wsl ++ (lab ++ '}' :: '}' :: rest))) =
      some (true, lab, rest) := by
  cases lab with
  | nil =>
    simp [matchRefAt, matchRefAfterKw, dropWhile_all_append _ _ _ hws,
      List.dropWhile_cons, splitAtBraces]
  | cons c cs =>
    have hc : rustWS c = false := by simpa [noLeadingWS] using h3
    have hsb : splitAtBraces (c :: (cs ++ '}' :: '}' :: rest)) = some (c :: cs, rest) := by
      have := splitAtBraces_append (c :: cs) rest h1
      simpa using this
    simp [matchRefAt, matchRefAfterKw, dropWhile_all_append _ _ _ hws,
      List.dropWhile_cons, hc, hsb, h2]

theorem refAux_step_any {chapPath : String} {refs : Registry} {fuel : Nat} {c : Char}
    {cs after l : List Char} {b : Bool} {ws : List String}
    (h : matchRefAt (c :: cs) = some (b, l, after)) :
    refAux chapPath refs (fuel + 1) (c :: cs) ws =
      (match List.lookup (String.mk l) refs with
       | some info =>
        (("[" ++ (if b then info.num_name else
            match info.title with
            | some t => t
            | none => info.num_name) ++ "](" ++ compute_rel_path chapPath info.path
          ++ "#" ++ String.mk l ++ ")").data ++ (refAux chapPath refs fuel after ws).1,
         (refAux chapPath refs fuel after ws).2)
       | none =>
        ("**[??]**".data
            ++ (refAux chapPath refs fuel after (ws ++ [unknownWarning (String.mk l)])).1,
         (refAux chapPath refs fuel after (ws ++ [unknownWarning (String.mk l)])).2)) := by
  cases hl : List.lookup (String.mk l) refs with
  | some info => simp [refAux, h, hl]
  | none => simp [refAux, h, hl]

/-- CLAIM C8 (corrected): only the whitespace BETWEEN the reference
keyword and the label is optional and skipped (by the greedy `\s*`);
whitespace after the label, before the closing braces, is NOT trimmed —
it is captured as part of the label used for the registry lookup and the
link fragment. First conjunct: any all-whitespace run between the
keyword and the label is ignored. Second conjunct: a non-empty
non-newline all-whitespace suffix `w` becomes part of the looked-up
label `lab ++ w`. -/
theorem ref_whitespace_handling (wsp w lab chapPath : String) (refs : Registry)
    (hl1 : '}' ∉ lab.data) (hl2 : '\n' ∉ lab.data) (hl3 : noLeadingWS lab.data = true)
    (hne : lab ≠ "")
    (hws : ∀ c ∈ wsp.data, rustWS c = true)
    (hw1 : ∀ c ∈ w.data, rustWS c = true) (hw2 : '\n' ∉ w.data)
    (hnone : List.lookup (lab ++ w) refs = none) :
    find_and_replace_refs ("\x7b\x7bref:" ++ wsp ++ lab ++ "\x7d\x7d") chapPath refs =
      find_and_replace_refs ("\x7b\x7bref:" ++ lab ++ "\x7d\x7d") chapPath refs ∧
    find_and_replace_refs ("\x7b\x7bref:" ++ lab ++ w ++ "\x7d\x7d") chapPath refs =
      ⟨"**[??]**", [unknownWarning (lab ++ w)]⟩ := by
  constructor
  · have hd1 : ("\x7b\x7bref:" ++ wsp ++ lab ++ "\x7d\x7d").data =
        '{' :: '{' :: 'r' :: 'e' :: 'f' :: ':' :: (wsp.data ++ (lab.data ++ '}' :: '}' :: [])) := by
      simp [String.data_append, data_ref_open]
    have hd2 : ("\x7b\x7bref:" ++ lab ++ "\x7d\x7d").data =
        '{' :: '{' :: 'r' :: 'e' :: 'f' :: ':' :: (lab.data ++ '}' :: '}' :: []) := by
      simp [String.data_append, data_ref_open]
    have hm1 := matchRefAt_ref_ws wsp.data lab.data [] hws hl1 hl2 hl3
    have hm2 := matchRefAt_ref lab.data [] hl1 hl2 hl3
    have e1 : find_and_replace_refs ("\x7b\x7bref:" ++ wsp ++ lab ++ "\x7d\x7d") chapPath refs =
        (match List.lookup lab refs with
         | some info =>
            ⟨"[" ++ info.num_name ++ "](" ++ compute_rel_path chapPath info.path
              ++ "#" ++ lab ++ ")", []⟩
         | none => (⟨"**[??]**", [unknownWarning lab]⟩ : RefResult)) := by
      unfold find_and_replace_refs
      rw [hd1]
      rw [refAux_fuel_pos _ _ (by simp) _ _]
      rw [refAux_step_any hm1]
      cases hl : List.lookup lab refs with
      | some info =>
        simp [hl, refAux_nil, mk_data_eq, string_eq_iff_data, String.data_append,
          data_lbrack, data_rbrack_lparen, data_hash, data_rparen]
      | none => simp [hl, refAux_nil, mk_data_eq]
    have e2 : find_and_replace_refs ("\x7b\x7bref:" ++ lab ++ "\x7d\x7d") chapPath refs =
        (match List.lookup lab refs with
         | some info =>
            ⟨"[" ++ info.num_name ++ "](" ++ compute_rel_path chapPath info.path
              ++ "#" ++ lab ++ ")", []⟩
         | none => (⟨"**[??]**", [unknownWarning lab]⟩ : RefResult)) := by
      unfold find_and_replace_refs
      rw [hd2]
      rw [refAux_fuel_pos _ _ (by simp) _ _]
      rw [refAux_step_any hm2]
      cases hl : List.lookup lab refs with
      | some info =>
        simp [hl, refAux_nil, mk_data_eq, string_eq_iff_data, String.data_append,
          data_lbrack, data_rbrack_lparen, data_hash, data_rparen]
      | none => simp [hl, refAux_nil, mk_data_eq]
    exact e1.trans e2.symm
  · have hx1 : '}' ∉ lab.data ++ w.data := by
      intro hmem
      rcases List.mem_append.mp hmem with hmem | hmem
      · exact hl1 hmem
      · exact absurd (hw1 _ hmem) (by decide)
    have hx2 : '\n' ∉ lab.data ++ w.data := by
      intro hmem
      rcases List.mem_append.mp hmem with hmem | hmem
      · exact hl2 hmem
      · exact hw2 hmem
    have hx3 : noLeadingWS (lab.data ++ w.data) = true := by
      cases hcase : lab.data with
      | nil => exact absurd (string_eq_iff_data.mpr (by simp [hcase])) hne
      | cons c cs =>
        rw [hcase] at hl3
        simpa [noLeadingWS] using hl3
    have hd : ("\x7b\x7bref:" ++ lab ++ w ++ "\x7d\x7d").data =
        '{' :: '{' :: 'r' :: 'e' :: 'f' :: ':' :: ((lab.data ++ w.data) ++ '}' :: '}' :: []) := by
      simp [String.data_append, data_ref_open]
    have hm := matchRefAt_ref (lab.data ++ w.data) [] hx1 hx2 hx3
    unfold find_and_replace_refs
    rw [hd]
    rw [refAux_fuel_pos _ _ (by simp) _ _]
    rw [refAux_step_unknown hm hnone]
    simp [refAux_nil, mk_data_eq, mk_data_append]

/-- Witness for C8: with "foo" registered in the same chapter, a leading
space after the keyword is ignored and `\x7b\x7bref: foo\x7d\x7d` still
resolves to the link, obtained by applying `ref_whitespace_handling` and
evaluating the right-hand side. -/
theorem ref_whitespace_handling_witness :
    find_and_replace_refs "\x7b\x7bref: foo\x7d\x7d" "a.md"
        [("foo", ⟨"Theorem 1", "a.md", none⟩)] =
      ⟨"[Theorem 1](#foo)", []⟩ :=
  ((ref_whitespace_handling " " " " "foo" "a.md" [("foo", ⟨"Theorem 1", "a.md", none⟩)]
    (by decide) (by decide) (by decide) (by decide) (by decide) (by decide) (by decide)
    (by decide)).1).trans (by decide)

/-- CLAIM C9, counterexample: the marker occurrence with an unterminated
label brace `\x7b\x7bthm\x7d\x7d\x7bfoo` is NOT left entirely untouched:
the mandatory `\x7b\x7bthm\x7d\x7d` part still matches and is replaced
by the numbered header, and only the unterminated `\x7bfoo` remains as
literal text (and indeed no diagnostic is emitted). -/
theorem env_malformed_cex :
    find_and_replace_envs "\x7b\x7bthm\x7d\x7d\x7bfoo" "" "a.md" thmEnv [] =
      ⟨"**Theorem 1.**\x7bfoo", [], []⟩ ∧
    ("**Theorem 1.**\x7bfoo" : String) ≠ "\x7b\x7bthm\x7d\x7d\x7bfoo" :=
  ⟨by decide, by decide⟩

theorem matchEnvAt_none_short (key : List Char) (cs : List Char)
    (h : cs.length < key.length + 4) : matchEnvAt key cs = none := by
  have hnp : ¬ (('{' :: '{' :: (key ++ ['}', '}'])).isPrefixOf cs) := by
    intro hp
    have := (List.isPrefixOf_iff_prefix.mp hp).length_le
    simp [List.length_append] at this
    omega
  simp [matchEnvAt, hnp]

theorem matchEnvAt_none_not_brace (key : List Char) (c : Char) (cs : List Char)
    (h : ¬ c = '{') : matchEnvAt key (c :: cs) = none := by
  have hnp : ¬ (('{' :: '{' :: (key ++ ['}', '}'])).isPrefixOf (c :: cs)) := by
    intro hp
    obtain ⟨t, ht⟩ := List.isPrefixOf_iff_prefix.mp hp
    simp at ht
    exact h ht.1.symm
  simp [matchEnvAt, hnp]

theorem matchEnvAt_none_second (key : List Char) (d : Char) (ds : List Char)
    (h : ¬ d = '{') : matchEnvAt key ('{' :: d :: ds) = none := by
  have hnp : ¬ (('{' :: '{' :: (key ++ ['}', '}'])).isPrefixOf ('{' :: d :: ds)) := by
    intro hp
    obtain ⟨t, ht⟩ := List.isPrefixOf_iff_prefix.mp hp
    simp at ht
    exact h ht.1.symm
  simp [matchEnvAt, hnp]

theorem hasEnvMatch_short (key : List Char) :
    ∀ cs : List Char, cs.length < key.length + 4 → hasEnvMatch key cs = false := by
  intro cs
  induction cs with
  | nil => intro _; rfl
  | cons c cs ih =>
    intro h
    simp [hasEnvMatch, matchEnvAt_none_short key _ h,
      ih (by simp at h ⊢; omega)]

theorem hasEnvMatch_no_brace (key : List Char) :
    ∀ l : List Char, '{' ∉ l → hasEnvMatch key l = false := by
  intro l
  induction l with
  | nil => intro _; rfl
  | cons c cs ih =>
    intro h
    have hc : ¬ c = '{' := fun e => h (by simp [e])
    simp [hasEnvMatch, matchEnvAt_none_not_brace key c cs hc,
      ih (fun hm => h (List.mem_cons_of_mem _ hm))]

theorem hasEnvMatch_open_cons (key : List Char) (l : List Char) (h : '{' ∉ l) :
    hasEnvMatch key ('{' :: l) = false := by
  cases l with
  | nil =>
    simp [hasEnvMatch, matchEnvAt_none_short key ['{'] (by simp)]
  | cons d ds =>
    have hd : ¬ d = '{' := fun e => h (by simp [e])
    have h1 : matchEnvAt key ('{' :: d :: ds) = none := matchEnvAt_none_second key d ds hd
    have h2 : hasEnvMatch key (d :: ds) = false := hasEnvMatch_no_brace key (d :: ds) h
    show ((matchEnvAt key ('{' :: d :: ds)).isSome || hasEnvMatch key (d :: ds)) = false
    rw [h1, h2]
    rfl

theorem data_lbrace : "\x7b".data = ['{'] := rfl

theorem data_lbrack_only : "[".data = ['['] := rfl

/-- CLAIM C9 (corrected): text that does not contain the mandatory
`\x7b\x7bkey\x7d\x7d` pattern — e.g. the truncated `\x7b\x7bkey\x7d` —
is left entirely untouched with no diagnostic and no registry change;
but a marker with an unterminated label brace or title bracket is NOT
left entirely untouched: the mandatory part still matches (the optional
groups simply do not participate), so `\x7b\x7bkey\x7d\x7d\x7blab`
renders the numbered header followed by the literal `\x7blab`, and
`\x7b\x7bkey\x7d\x7d[tit` renders the header followed by the literal
`[tit`; no diagnostic is emitted in any of these cases. -/
theorem env_malformed_markers (env : Env) (pfx path : String) (refs : Registry)
    (lab tit : String)
    (hlb : '{' ∉ lab.data) (hlc : '}' ∉ lab.data)
    (htb : '{' ∉ tit.data) (htc : ']' ∉ tit.data) :
    find_and_replace_envs ("\x7b\x7b" ++ env.key ++ "\x7d") pfx path env refs =
      ⟨"\x7b\x7b" ++ env.key ++ "\x7d", refs, []⟩ ∧
    find_and_replace_envs ("\x7b\x7b" ++ env.key ++ "\x7d\x7d\x7b" ++ lab) pfx path env refs =
      ⟨envHeader env pfx 1 none ++ "\x7b" ++ lab, refs, []⟩ ∧
    find_and_replace_envs ("\x7b\x7b" ++ env.key ++ "\x7d\x7d[" ++ tit) pfx path env refs =
      ⟨envHeader env pfx 1 none ++ "[" ++ tit, refs, []⟩ := by
  refine ⟨?_, ?_, ?_⟩
  · have hd : ("\x7b\x7b" ++ env.key ++ "\x7d").data =
        '{' :: '{' :: (env.key.data ++ ['}']) := by
      simp [String.data_append, data_two_braces_open]
    have hshort : hasEnvMatch env.key.data ('{' :: '{' :: (env.key.data ++ ['}'])) = false :=
      hasEnvMatch_short env.key.data _ (by simp)
    unfold find_and_replace_envs
    rw [hd]
    rw [envAux_unchanged env pfx path _ _ _ _ _ hshort]
    simp [string_eq_iff_data, hd]
  · have hd : ("\x7b\x7b" ++ env.key ++ "\x7d\x7d\x7b" ++ lab).data =
        '{' :: '{' :: (env.key.data ++ '}' :: '}' :: ('{' :: lab.data)) := by
      simp [String.data_append, data_two_braces_open, data_braces_close_open]
    have hm : matchEnvAt env.key.data
        ('{' :: '{' :: (env.key.data ++ '}' :: '}' :: ('{' :: lab.data))) =
        some (none, none, '{' :: lab.data) := by
      rw [matchEnvAt_cons]
      rw [matchGroup_noClose _ _ _ hlc]
      rw [matchGroup_notOpen _ _ _ _ (by decide)]
    unfold find_and_replace_envs
    rw [hd]
    rw [envAux_fuel_pos _ _ _ (by simp) _ _ _ _]
    rw [envAux_step_nolabel hm]
    rw [envAux_unchanged env pfx path _ _ _ _ _ (hasEnvMatch_open_cons env.key.data lab.data hlb)]
    simp [string_eq_iff_data, String.data_append, data_lbrace]
  · have hd : ("\x7b\x7b" ++ env.key ++ "\x7d\x7d[" ++ tit).data =
        '{' :: '{' :: (env.key.data ++ '}' :: '}' :: ('[' :: tit.data)) := by
      simp [String.data_append, data_two_braces_open]
    have hm : matchEnvAt env.key.data
        ('{' :: '{' :: (env.key.data ++ '}' :: '}' :: ('[' :: tit.data))) =
        some (none, none, '[' :: tit.data) := by
      rw [matchEnvAt_cons]
      rw [matchGroup_notOpen _ _ _ _ (by decide)]
      rw [matchGroup_noClose _ _ _ htc]
    have hnm : hasEnvMatch env.key.data ('[' :: tit.data) = false := by
      have hc : ¬ '[' = '{' := by decide
      have h1 : matchEnvAt env.key.data ('[' :: tit.data) = none :=
        matchEnvAt_none_not_brace env.key.data '[' tit.data hc
      have h2 : hasEnvMatch env.key.data tit.data = false :=
        hasEnvMatch_no_brace env.key.data tit.data htb
      show ((matchEnvAt env.key.data ('[' :: tit.data)).isSome
        || hasEnvMatch env.key.data tit.data) = false
      rw [h1, h2]
      rfl
    unfold find_and_replace_envs
    rw [hd]
    rw [envAux_fuel_pos _ _ _ (by simp) _ _ _ _]
    rw [envAux_step_nolabel hm]
    rw [envAux_unchanged env pfx path _ _ _ _ _ hnm]
    simp [string_eq_iff_data, String.data_append, data_lbrack_only]

/-- Witness for C9's corrected statement: the truncated `thm` marker is
left untouched and the unterminated-label marker renders the header with
the literal remainder, obtained by applying `env_malformed_markers` and
evaluating. -/
theorem env_malformed_markers_witness :
    find_and_replace_envs "\x7b\x7bthm\x7d" "" "a.md" thmEnv [] =
      ⟨"\x7b\x7bthm\x7d", [], []⟩ ∧
    find_and_replace_envs "\x7b\x7bthm\x7d\x7d\x7bfoo" "" "a.md" thmEnv [] =
      ⟨"**Theorem 1.**\x7bfoo", [], []⟩ :=
  ⟨((env_malformed_markers thmEnv "" "a.md" [] "foo" "bar"
      (by decide) (by decide) (by decide) (by decide)).1).trans (by decide),
   ((env_malformed_markers thmEnv "" "a.md" [] "foo" "bar"
      (by decide) (by decide) (by decide) (by decide)).2.1).trans (by decide)⟩
